import Mathlib

/-!
Verification of the KJDB tile-swap puzzle client.

This file is a shallow embedding of the client game logic (`public/app.js`)
of the tile-swap puzzle repository: the shuffle engine (`shuffleTiles`,
`checkSolved`), the tile partitioner (`createTiles`), and the session state
machine (`handleTileClick`, `swapTiles`, `loadLevel`, `createAndPlayAudio`,
`nextLevel`, `restart`, button handlers).  JavaScript arrays become Lean
lists, the module-level `state` object becomes an explicit `GameState`
record, and the browser event loop becomes a labelled step relation: each
observable event (a click handler or a timer callback running to completion)
is one atomic transition, which is faithful to the single-threaded
run-to-completion semantics of the browser.

Asynchronous outcomes of `loadLevel` (metadata fetch failure, image load
failure, success) are modelled by a `LoadOutcome` chosen by the environment;
the partial state mutations that the source performs before each `await`
point are reproduced exactly.
-/

namespace Puzzle

/-- A puzzle tile as built by `createTiles` in app.js: `originalIndex` is the
row-major origin slot of the tile, and the canvas holding the image slice is
an opaque handle, modelled as a number. -/
structure Tile where
  originalIndex : Nat
  canvas : Nat
deriving DecidableEq

/-- Default tile used to totalise list indexing (`l.getD i defaultTile`);
it corresponds to the `undefined` a JavaScript out-of-range read yields. -/
def defaultTile : Tile := ⟨0, 0⟩

/-- The JavaScript destructuring swap `[a[i], a[j]] = [a[j], a[i]]` used by
`shuffleTiles` and `swapTiles` in app.js: both reads happen before either
write. -/
def listSwap (l : List Tile) (i j : Nat) : List Tile :=
  (l.set i (l.getD j defaultTile)).set j (l.getD i defaultTile)

/-- `calculateGridSize` from app.js:
`Math.min(baseSize + levelIndex, maxSize)` with base 3 and max 6. -/
def calculateGridSize (levelIndex : Nat) : Nat :=
  let baseSize := 3
  let maxSize := 6
  min (baseSize + levelIndex) maxSize

/-- The Fisher-Yates loop of `shuffleTiles` in app.js:
`for (let i = n - 1; i > 0; i--) { j = floor(random()*(i+1)); swap i j }`.
The stream of random draws is an explicit parameter `rand`; the draw used at
loop index `i` is `rand i % (i+1)`, which ranges over exactly the values
`0..i` that `Math.floor(Math.random()*(i+1))` can produce. -/
def fisherYates (rand : Nat → Nat) : Nat → List Tile → List Tile
  | 0, l => l
  | i + 1, l => fisherYates rand i (listSwap l (i + 1) (rand (i + 1) % (i + 2)))

/-- The inversion count of `shuffleTiles` in app.js: the number of pairs
`i < j` with `a[i] > a[j]`, computed there by a double loop over indices and
here by summing, for each element, the later elements smaller than it. -/
def countInversions : List Nat → Nat
  | [] => 0
  | x :: xs => xs.countP (fun y => decide (y < x)) + countInversions xs

/-- The parity-correction step at the end of `shuffleTiles` in app.js
(inlined there): if the inversion count of the shuffled board is odd, swap
positions 0 and 1. -/
def parityFix (shuffled : List Tile) : List Tile :=
  if countInversions (shuffled.map (·.originalIndex)) % 2 ≠ 0 then
    listSwap shuffled 0 1
  else
    shuffled

/-- `shuffleTiles` from app.js: copy the array, run the Fisher-Yates loop
from `n - 1` down to `1`, then apply the parity correction. -/
def shuffleTiles (tiles : List Tile) (rand : Nat → Nat) : List Tile :=
  let n := tiles.length
  parityFix (fisherYates rand (n - 1) tiles)

/-- `checkSolved` from app.js:
`tiles.every((tile, index) => tile.originalIndex === index)`. -/
def checkSolved (tiles : List Tile) : Bool :=
  tiles.enum.all (fun p => p.2.originalIndex == p.1)

/-- `createTiles` from app.js: the double loop over rows and columns that
slices the image into `gridSize * gridSize` tiles with row-major
`originalIndex = row * gridSize + col`.  The canvas content drawn from the
image is opaque; it is modelled by the tile's own index. -/
def createTiles (image : String) (gridSize : Nat) : List Tile :=
  ((List.range gridSize).map fun row =>
    (List.range gridSize).map fun col =>
      { originalIndex := row * gridSize + col,
        canvas := row * gridSize + col : Tile }).flatten

/-- Level metadata as returned by `GET /api/levels/:levelName` and stored in
`state.currentLevel`: the level folder name and the image and audio file
names. -/
structure LevelData where
  level : String
  image : String
  audio : String
deriving DecidableEq

/-- The screens toggled by `showScreen` in app.js; exactly one is visible at
a time, and only controls on the visible screen can receive clicks. -/
inductive Screen
  | loading
  | error
  | welcome
  | game
  | completion
  | final
deriving DecidableEq

/-- The module-level `state` object of app.js plus the screen shown by
`showScreen` and the pending asynchronous continuations: `pendingFetch` is
an `init()` call awaiting `fetchLevels`, `pendingLoad` a `loadLevel` call
awaiting its fetches, and `pendingCompletion` the `setTimeout` scheduled by
`handlePuzzleSolved` that will run `showCompletionScreen`.  The audio
element is modelled by its source URL. -/
structure GameState where
  levels : List String
  currentLevelIndex : Nat
  currentLevel : Option LevelData
  gridSize : Nat
  tiles : List Tile
  selectedTile : Option Nat
  isSolved : Bool
  originalImage : Option String
  audioElement : Option String
  screen : Screen
  errorMessage : String
  pendingFetch : Bool
  pendingLoad : Option Nat
  pendingCompletion : Bool

/-- The initial `state` object literal of app.js, at the point where
`DOMContentLoaded` has fired and `init()` has shown the loading screen and
started fetching the level list. -/
def initialState : GameState :=
  { levels := []
    currentLevelIndex := 0
    currentLevel := none
    gridSize := 3
    tiles := []
    selectedTile := none
    isSolved := false
    originalImage := none
    audioElement := none
    screen := Screen.loading
    errorMessage := ""
    pendingFetch := true
    pendingLoad := none
    pendingCompletion := false }

/-- `swapTiles` from app.js: exchange the two board entries.  The CSS
classes and the 150 ms deferred re-render are cosmetic and carry no state. -/
def swapTiles (s : GameState) (indexA indexB : Nat) : GameState :=
  { s with tiles := listSwap s.tiles indexA indexB }

/-- `handlePuzzleSolved` from app.js: set `isSolved`, lock the puzzle, and
schedule `showCompletionScreen` via `setTimeout`. -/
def handlePuzzleSolved (s : GameState) : GameState :=
  { s with isSolved := true, pendingCompletion := true }

/-- `handleTileClick` from app.js: ignore clicks once solved; otherwise arm
the clicked position, disarm it if it was already armed, or swap with the
armed position, then run `checkSolved` and enter the solved state if the
board is now solved. -/
def handleTileClick (s : GameState) (index : Nat) : GameState :=
  if s.isSolved then s
  else
    match s.selectedTile with
    | none => { s with selectedTile := some index }
    | some sel =>
      if sel = index then
        { s with selectedTile := none }
      else
        if checkSolved (listSwap s.tiles sel index) then
          handlePuzzleSolved { swapTiles s sel index with selectedTile := none }
        else
          { swapTiles s sel index with selectedTile := none }

/-- `createAndPlayAudio` from app.js: discard any existing audio element and
create a fresh one with source `/levels/<level>/<audio>`; playback itself is
outside the model. -/
def createAndPlayAudio (s : GameState) : GameState :=
  { s with
    audioElement :=
      s.currentLevel.map fun ld => "/levels/" ++ ld.level ++ "/" ++ ld.audio }

/-- `showCompletionScreen` from app.js: show the completion screen and only
then construct and play the audio element. -/
def showCompletionScreen (s : GameState) : GameState :=
  createAndPlayAudio { s with screen := Screen.completion }

/-- How a `loadLevel` call resolves, as decided by the environment:
`fetchFail` is a rejected `fetchLevelData` (thrown before any state field is
written), `imageFail` a rejected `loadImage` (thrown after the metadata
fields are written), and `success` a completed load carrying the metadata,
the random draws used by the shuffle, and the image. -/
inductive LoadOutcome
  | fetchFail (msg : String)
  | imageFail (ld : LevelData)
  | success (ld : LevelData) (rand : Nat → Nat) (img : String)

/-- The body of `loadLevel` in app.js after its `await` points resolve,
reproducing the exact order of the source's mutations: `currentLevel`,
`currentLevelIndex` and `gridSize` are written before the image is awaited,
so an image failure leaves them updated; the board, selection, solved flag
and audio element are only written on the success path, which ends on the
game screen.  Both failure paths end in `showError` with a
`Failed to load level: ...` message. -/
def loadLevel (s : GameState) (levelIndex : Nat) (outcome : LoadOutcome) :
    GameState :=
  match outcome with
  | LoadOutcome.fetchFail msg =>
    { s with
      screen := Screen.error
      errorMessage := "Failed to load level: " ++ msg
      pendingLoad := none }
  | LoadOutcome.imageFail ld =>
    { s with
      currentLevel := some ld
      currentLevelIndex := levelIndex
      gridSize := calculateGridSize levelIndex
      screen := Screen.error
      errorMessage := "Failed to load level: Failed to load image"
      pendingLoad := none }
  | LoadOutcome.success ld rand img =>
    let gs := calculateGridSize levelIndex
    { s with
      currentLevel := some ld
      currentLevelIndex := levelIndex
      gridSize := gs
      originalImage := some img
      tiles := shuffleTiles (createTiles img gs) rand
      selectedTile := none
      isSolved := false
      audioElement := none
      screen := Screen.game
      pendingLoad := none }

/-- `nextLevel` from app.js: on the last level show the final screen,
otherwise start loading the next level (which first shows the loading
screen). -/
def nextLevel (s : GameState) : GameState :=
  if s.currentLevelIndex ≥ s.levels.length - 1 then
    { s with screen := Screen.final }
  else
    { s with
      screen := Screen.loading
      pendingLoad := some (s.currentLevelIndex + 1) }

/-- The observable events of the client: resolution of the `init()` fetch,
clicks on the controls of the visible screen, tile clicks, and the solved
completion timer. -/
inductive Event
  | fetchOk (ls : List String)
  | fetchFailed (msg : String)
  | startClick
  | retryClick
  | tileClick (i : Nat)
  | completionFire
  | replayClick
  | nextClick
  | restartClick
  | loadFinish (outcome : LoadOutcome)

/-- One run-to-completion step of the client event loop.  Guards record
which control is reachable: a button only receives clicks while its screen
is visible, a tile click comes from one of the rendered tiles, and the two
timers and two fetch continuations only fire when pending. -/
inductive Step : GameState → Event → GameState → Prop
  | fetchOk (s : GameState) (ls : List String) :
      s.pendingFetch = true → ls ≠ [] →
      Step s (Event.fetchOk ls)
        { s with levels := ls, screen := Screen.welcome, pendingFetch := false }
  | fetchFailed (s : GameState) (msg : String) :
      s.pendingFetch = true →
      Step s (Event.fetchFailed msg)
        { s with screen := Screen.error, errorMessage := msg,
                 pendingFetch := false }
  | startClick (s : GameState) :
      s.screen = Screen.welcome →
      Step s Event.startClick
        { s with screen := Screen.loading, pendingLoad := some 0 }
  | retryClick (s : GameState) :
      s.screen = Screen.error →
      Step s Event.retryClick
        { s with screen := Screen.loading, pendingFetch := true }
  | tileClick (s : GameState) (i : Nat) :
      s.screen = Screen.game → i < s.tiles.length →
      Step s (Event.tileClick i) (handleTileClick s i)
  | completionFire (s : GameState) :
      s.pendingCompletion = true →
      Step s Event.completionFire
        (showCompletionScreen { s with pendingCompletion := false })
  | replayClick (s : GameState) :
      s.screen = Screen.completion →
      Step s Event.replayClick s
  | nextClick (s : GameState) :
      s.screen = Screen.completion →
      Step s Event.nextClick (nextLevel s)
  | restartClick (s : GameState) :
      s.screen = Screen.final →
      Step s Event.restartClick
        { s with currentLevelIndex := 0, screen := Screen.loading,
                 pendingLoad := some 0 }
  | loadFinish (s : GameState) (idx : Nat) (outcome : LoadOutcome) :
      s.pendingLoad = some idx →
      Step s (Event.loadFinish outcome)
        (loadLevel { s with pendingLoad := none } idx outcome)

/-- States reachable from startup by the event loop. -/
inductive Reachable : GameState → Prop
  | init : Reachable initialState
  | step {s : GameState} {e : Event} {s' : GameState} :
      Reachable s → Step s e s' → Reachable s'

/-- The inductive invariant behind the audio-gating claim: the pending
continuations pin the visible screen, a pending completion timer implies the
puzzle is solved, and the audio element is absent whenever the puzzle is not
solved. -/
def Inv (s : GameState) : Prop :=
  (s.pendingFetch = true →
    s.screen = Screen.loading ∧ s.pendingLoad = none ∧
      s.pendingCompletion = false) ∧
  (∀ idx, s.pendingLoad = some idx →
    s.screen = Screen.loading ∧ s.pendingFetch = false ∧
      s.pendingCompletion = false) ∧
  (s.pendingCompletion = true →
    s.screen = Screen.game ∧ s.isSolved = true) ∧
  (s.isSolved = false → s.audioElement = none)

/-- Board fixture used by concrete scenarios: a board whose tiles carry the
given origin ordinals, in the given order. -/
def ordinalBoard (l : List Nat) : List Tile :=
  l.map fun k => ⟨k, k⟩

/-- Fixture for the C9 witness: an unsolved game state with position 2
armed. -/
def armedState : GameState :=
  { initialState with
    screen := Screen.game
    tiles := ordinalBoard [1, 0, 2, 3]
    selectedTile := some 2 }

/-- Fixture for the C7 witness: a solved single-tile game state. -/
def solvedState : GameState :=
  { initialState with
    screen := Screen.game
    tiles := ordinalBoard [0]
    isSolved := true }

/-- Level metadata fixture for the C6 counterexample. -/
def levelTwo : LevelData := ⟨"level_2", "image.jpg", "audio.mp3"⟩

/-- State fixture for the C6 counterexample: a session on level 0 with grid
size 3, about to load level 1. -/
def preLoadState : GameState :=
  { initialState with
    levels := ["level_1", "level_2"]
    screen := Screen.loading
    pendingLoad := some 1 }

/-! Helper lemmas about `listSwap`, `fisherYates` and `countInversions`. -/

lemma set_getD_self (l : List Tile) (i : Nat) :
    l.set i (l.getD i defaultTile) = l := by
  induction l generalizing i with
  | nil => simp
  | cons x t ih =>
    cases i with
    | zero => simp
    | succ m =>
      simp only [List.getD_cons_succ, List.set_cons_succ]
      rw [ih]

lemma listSwap_self (l : List Tile) (i : Nat) : listSwap l i i = l := by
  unfold listSwap
  rw [set_getD_self, set_getD_self]

lemma listSwap_length (l : List Tile) (i j : Nat) :
    (listSwap l i j).length = l.length := by
  simp [listSwap]

lemma getD_cons_set_perm (l : List Tile) (m : Nat) (a : Tile)
    (h : m < l.length) :
    (l.getD m defaultTile :: l.set m a).Perm (a :: l) := by
  induction l generalizing m with
  | nil => simp at h
  | cons x t ih =>
    cases m with
    | zero =>
      simpa using List.Perm.swap a x t
    | succ k =>
      have hk : k < t.length := by simpa using h
      have hstep : (x :: t).getD (k + 1) defaultTile :: (x :: t).set (k + 1) a
          = t.getD k defaultTile :: x :: t.set k a := by simp
      rw [hstep]
      exact (List.Perm.swap x (t.getD k defaultTile) (t.set k a)).trans
        ((List.Perm.cons x (ih k hk)).trans (List.Perm.swap a x t))

lemma listSwap_perm (l : List Tile) (i j : Nat)
    (hi : i < l.length) (hj : j < l.length) : (listSwap l i j).Perm l := by
  induction l generalizing i j with
  | nil => simp at hi
  | cons x t ih =>
    cases i with
    | zero =>
      cases j with
      | zero => rw [listSwap_self]
      | succ m =>
        have hm : m < t.length := by simpa using hj
        unfold listSwap
        simpa using getD_cons_set_perm t m x hm
    | succ n =>
      cases j with
      | zero =>
        have hn : n < t.length := by simpa using hi
        unfold listSwap
        simpa using getD_cons_set_perm t n x hn
      | succ m =>
        have hn : n < t.length := by simpa using hi
        have hm : m < t.length := by simpa using hj
        have : listSwap (x :: t) (n + 1) (m + 1) = x :: listSwap t n m := by
          simp [listSwap]
        rw [this]
        exact List.Perm.cons x (ih n m hn hm)

lemma fisherYates_perm (rand : Nat → Nat) :
    ∀ (i : Nat) (l : List Tile), i < l.length →
      (fisherYates rand i l).Perm l := by
  intro i
  induction i with
  | zero => intro l _; exact List.Perm.refl l
  | succ k ih =>
    intro l hl
    have hj : rand (k + 1) % (k + 2) < l.length :=
      lt_of_le_of_lt (Nat.le_of_lt_succ (Nat.mod_lt _ (Nat.succ_pos _))) hl
    have hswap : (listSwap l (k + 1) (rand (k + 1) % (k + 2))).Perm l :=
      listSwap_perm l _ _ hl hj
    have hk : k < (listSwap l (k + 1) (rand (k + 1) % (k + 2))).length := by
      rw [listSwap_length]
      exact Nat.lt_of_succ_lt hl
    exact (ih _ hk).trans hswap

lemma countInversions_short (l : List Nat) (h : l.length ≤ 1) :
    countInversions l = 0 := by
  match l, h with
  | [], _ => rfl
  | [x], _ => simp [countInversions]

lemma parityFix_perm (l : List Tile) : (parityFix l).Perm l := by
  unfold parityFix
  split
  case isTrue hodd =>
    match l, hodd with
    | [], hodd => simp [countInversions] at hodd
    | [x], hodd => simp [countInversions] at hodd
    | a :: b :: r, _ =>
      exact listSwap_perm _ 0 1 (by simp) (by simp)
  case isFalse _ => exact List.Perm.refl l

lemma fisherYates_shuffle_perm (tiles : List Tile) (rand : Nat → Nat) :
    (fisherYates rand (tiles.length - 1) tiles).Perm tiles := by
  cases tiles with
  | nil => exact List.Perm.refl []
  | cons x t => exact fisherYates_perm rand _ _ (by simp)

lemma shuffleTiles_perm (tiles : List Tile) (rand : Nat → Nat) :
    (shuffleTiles tiles rand).Perm tiles := by
  unfold shuffleTiles
  exact (parityFix_perm _).trans (fisherYates_shuffle_perm tiles rand)

lemma swap01_parity (x y : Nat) (r : List Nat) (h : x ≠ y) :
    (countInversions (y :: x :: r) + countInversions (x :: y :: r)) % 2 = 1 := by
  simp only [countInversions, List.countP_cons]
  rcases h.lt_or_lt with hlt | hlt
  · simp [hlt, Nat.lt_asymm hlt]
    omega
  · simp [hlt, Nat.lt_asymm hlt]
    omega

lemma listSwap_zero_one (a b : Tile) (r : List Tile) :
    listSwap (a :: b :: r) 0 1 = b :: a :: r := by
  simp [listSwap]

lemma parityFix_even (l : List Tile)
    (h : (l.map (·.originalIndex)).Nodup) :
    countInversions ((parityFix l).map (·.originalIndex)) % 2 = 0 := by
  unfold parityFix
  split
  case isTrue hodd =>
    match l, h, hodd with
    | [], _, hodd => simp [countInversions] at hodd
    | [x], _, hodd => simp [countInversions] at hodd
    | a :: b :: r, h, hodd =>
      have hne : a.originalIndex ≠ b.originalIndex := by
        simp only [List.map_cons, List.nodup_cons, List.mem_cons] at h
        exact fun heq => h.1 (Or.inl heq)
      have hp := swap01_parity a.originalIndex b.originalIndex
        (r.map (·.originalIndex)) hne
      rw [listSwap_zero_one]
      simp only [List.map_cons] at hodd ⊢
      omega
  case isFalse hev => omega

lemma shuffleTiles_even (tiles : List Tile) (rand : Nat → Nat)
    (h : (tiles.map (·.originalIndex)).Nodup) :
    countInversions ((shuffleTiles tiles rand).map (·.originalIndex)) % 2 = 0 := by
  unfold shuffleTiles
  apply parityFix_even
  exact (((fisherYates_shuffle_perm tiles rand).map (·.originalIndex)).symm).nodup h

lemma all_enumFrom (l : List Tile) : ∀ (k : Nat),
    ((List.enumFrom k l).all fun p => p.2.originalIndex == p.1) = true ↔
      l.map (·.originalIndex) = (List.range l.length).map (k + ·) := by
  induction l with
  | nil => intro k; simp
  | cons x t ih =>
    intro k
    simp only [List.enumFrom_cons, List.all_cons, Bool.and_eq_true, beq_iff_eq,
      List.map_cons, List.length_cons, List.range_succ_eq_map, List.map_map]
    rw [ih (k + 1)]
    have hmap : (List.range t.length).map ((fun i => k + i) ∘ Nat.succ)
        = (List.range t.length).map (fun i => k + 1 + i) :=
      List.map_congr_left (fun i _ => by simp [Function.comp]; omega)
    constructor
    · rintro ⟨h1, h2⟩
      rw [h1, h2]
      simp only [List.cons.injEq]
      exact ⟨rfl, hmap.symm⟩
    · intro hcons
      rw [List.cons.injEq] at hcons
      obtain ⟨h1, h2⟩ := hcons
      refine ⟨by omega, ?_⟩
      rw [h2, hmap]

lemma checkSolved_iff (tiles : List Tile) :
    checkSolved tiles = true ↔
      tiles.map (·.originalIndex) = List.range tiles.length := by
  have h := all_enumFrom tiles 0
  have hid : (List.range tiles.length).map (fun i => 0 + i)
      = List.range tiles.length := by
    simp
  unfold checkSolved
  rw [List.enum]
  rw [h, hid]

lemma createTiles_flatten (gs : Nat) : ∀ (m : Nat),
    (((List.range m).map fun row =>
        (List.range gs).map fun col => row * gs + col)).flatten
      = List.range (m * gs) := by
  intro m
  induction m with
  | zero => simp
  | succ k ih =>
    rw [List.range_succ, List.map_append, List.flatten_append, ih]
    simp [Nat.succ_mul, List.range_add]

lemma createTiles_map (img : String) (gs : Nat) :
    (createTiles img gs).map (·.originalIndex) = List.range (gs * gs) := by
  unfold createTiles
  rw [List.map_flatten]
  simp only [List.map_map]
  have hinner : ∀ row : Nat,
      (((List.range gs).map fun col =>
        ({ originalIndex := row * gs + col, canvas := row * gs + col : Tile })).map
          (·.originalIndex))
        = (List.range gs).map fun col => row * gs + col := by
    intro row
    simp [List.map_map, Function.comp]
  have hcongr :
      (List.range gs).map
          ((List.map (·.originalIndex)) ∘ fun row =>
            (List.range gs).map fun col =>
              ({ originalIndex := row * gs + col, canvas := row * gs + col : Tile }))
        = (List.range gs).map fun row =>
            (List.range gs).map fun col => row * gs + col :=
    List.map_congr_left (fun row _ => hinner row)
  rw [hcongr, createTiles_flatten gs gs]

/-! Helper lemmas about `handleTileClick`. -/

lemma handleTileClick_of_solved (s : GameState) (i : Nat)
    (h : s.isSolved = true) : handleTileClick s i = s := by
  simp [handleTileClick, h]

lemma handleTileClick_frame (s : GameState) (i : Nat) :
    (handleTileClick s i).screen = s.screen ∧
    (handleTileClick s i).pendingFetch = s.pendingFetch ∧
    (handleTileClick s i).pendingLoad = s.pendingLoad ∧
    (handleTileClick s i).audioElement = s.audioElement := by
  unfold handleTileClick swapTiles handlePuzzleSolved
  split
  · exact ⟨rfl, rfl, rfl, rfl⟩
  · split
    · exact ⟨rfl, rfl, rfl, rfl⟩
    · split
      · exact ⟨rfl, rfl, rfl, rfl⟩
      · split
        · exact ⟨rfl, rfl, rfl, rfl⟩
        · exact ⟨rfl, rfl, rfl, rfl⟩

lemma handleTileClick_pc (s : GameState) (i : Nat)
    (hs : s.isSolved = false) (hp : s.pendingCompletion = false) :
    (handleTileClick s i).pendingCompletion = true →
      (handleTileClick s i).isSolved = true := by
  rcases hsel : s.selectedTile with _ | sel
  · simp [handleTileClick, hs, hsel, hp]
  · by_cases hsi : sel = i
    · simp [handleTileClick, hs, hsel, hsi, hp]
    · simp only [handleTileClick, hs, hsel, hsi, Bool.false_eq_true, if_false,
        ite_false]
      split
      · intro _
        simp [handlePuzzleSolved, swapTiles]
      · simp [swapTiles, hp]

lemma inv_initial : Inv initialState := by
  refine ⟨fun _ => ⟨rfl, rfl, rfl⟩, ?_, ?_, fun _ => rfl⟩
  · intro idx h
    simp [initialState] at h
  · intro h
    simp [initialState] at h

lemma inv_step {s : GameState} {e : Event} {s' : GameState}
    (hInv : Inv s) (hStep : Step s e s') : Inv s' := by
  obtain ⟨h1, h2, h3, h4⟩ := hInv
  cases hStep with
  | fetchOk ls hp hne =>
    obtain ⟨hsc, hpl, hpc⟩ := h1 hp
    refine ⟨?_, ?_, ?_, ?_⟩
    · intro hf
      simp at hf
    · intro idx hidx
      simp [hpl] at hidx
    · intro hc
      simp [hpc] at hc
    · intro hs
      exact h4 hs
  | fetchFailed msg hp =>
    obtain ⟨hsc, hpl, hpc⟩ := h1 hp
    refine ⟨?_, ?_, ?_, ?_⟩
    · intro hf
      simp at hf
    · intro idx hidx
      simp [hpl] at hidx
    · intro hc
      simp [hpc] at hc
    · intro hs
      exact h4 hs
  | startClick hsc =>
    have hpf : s.pendingFetch = false := by
      cases hf : s.pendingFetch with
      | false => rfl
      | true =>
        have := (h1 hf).1
        rw [hsc] at this
        simp at this
    have hpc : s.pendingCompletion = false := by
      cases hc : s.pendingCompletion with
      | false => rfl
      | true =>
        have := (h3 hc).1
        rw [hsc] at this
        simp at this
    refine ⟨?_, ?_, ?_, ?_⟩
    · intro hf
      simp [hpf] at hf
    · intro idx hidx
      exact ⟨rfl, hpf, hpc⟩
    · intro hc
      simp [hpc] at hc
    · intro hs
      exact h4 hs
  | retryClick hsc =>
    have hpl : s.pendingLoad = none := by
      cases hl : s.pendingLoad with
      | none => rfl
      | some idx =>
        have := (h2 idx hl).1
        rw [hsc] at this
        simp at this
    have hpc : s.pendingCompletion = false := by
      cases hc : s.pendingCompletion with
      | false => rfl
      | true =>
        have := (h3 hc).1
        rw [hsc] at this
        simp at this
    refine ⟨?_, ?_, ?_, ?_⟩
    · intro _
      exact ⟨rfl, hpl, hpc⟩
    · intro idx hidx
      simp [hpl] at hidx
    · intro hc
      simp [hpc] at hc
    · intro hs
      exact h4 hs
  | tileClick i hsc hi =>
    obtain ⟨hfr1, hfr2, hfr3, hfr4⟩ := handleTileClick_frame s i
    have hpf : s.pendingFetch = false := by
      cases hf : s.pendingFetch with
      | false => rfl
      | true =>
        have := (h1 hf).1
        rw [hsc] at this
        simp at this
    have hpl : s.pendingLoad = none := by
      cases hl : s.pendingLoad with
      | none => rfl
      | some idx =>
        have := (h2 idx hl).1
        rw [hsc] at this
        simp at this
    by_cases hsol : s.isSolved = true
    · rw [handleTileClick_of_solved s i hsol]
      exact ⟨h1, h2, h3, h4⟩
    · have hsol' : s.isSolved = false := by
        cases hx : s.isSolved with
        | false => rfl
        | true => exact absurd hx hsol
      have hpc : s.pendingCompletion = false := by
        cases hc : s.pendingCompletion with
        | false => rfl
        | true =>
          have := (h3 hc).2
          rw [hsol'] at this
          simp at this
      refine ⟨?_, ?_, ?_, ?_⟩
      · intro hf
        rw [hfr2, hpf] at hf
        simp at hf
      · intro idx hidx
        rw [hfr3, hpl] at hidx
        simp at hidx
      · intro hc
        refine ⟨by rw [hfr1, hsc], ?_⟩
        exact handleTileClick_pc s i hsol' hpc hc
      · intro _
        rw [hfr4]
        exact h4 hsol'
  | completionFire hp =>
    obtain ⟨hsc, hsol⟩ := h3 hp
    have hpf : s.pendingFetch = false := by
      cases hf : s.pendingFetch with
      | false => rfl
      | true =>
        have := (h1 hf).2.2
        rw [hp] at this
        simp at this
    have hpl : s.pendingLoad = none := by
      cases hl : s.pendingLoad with
      | none => rfl
      | some idx =>
        have := (h2 idx hl).2.2
        rw [hp] at this
        simp at this
    refine ⟨?_, ?_, ?_, ?_⟩
    · intro hf
      simp only [showCompletionScreen, createAndPlayAudio] at hf
      simp [hpf] at hf
    · intro idx hidx
      simp only [showCompletionScreen, createAndPlayAudio] at hidx
      simp [hpl] at hidx
    · intro hc
      simp only [showCompletionScreen, createAndPlayAudio] at hc
      simp at hc
    · intro hs
      simp only [showCompletionScreen, createAndPlayAudio] at hs
      simp [hsol] at hs
  | replayClick hsc =>
    exact ⟨h1, h2, h3, h4⟩
  | nextClick hsc =>
    have hpf : s.pendingFetch = false := by
      cases hf : s.pendingFetch with
      | false => rfl
      | true =>
        have := (h1 hf).1
        rw [hsc] at this
        simp at this
    have hpl : s.pendingLoad = none := by
      cases hl : s.pendingLoad with
      | none => rfl
      | some idx =>
        have := (h2 idx hl).1
        rw [hsc] at this
        simp at this
    have hpc : s.pendingCompletion = false := by
      cases hc : s.pendingCompletion with
      | false => rfl
      | true =>
        have := (h3 hc).1
        rw [hsc] at this
        simp at this
    unfold nextLevel
    split
    · refine ⟨?_, ?_, ?_, ?_⟩
      · intro hf
        simp [hpf] at hf
      · intro idx hidx
        simp [hpl] at hidx
      · intro hc
        simp [hpc] at hc
      · intro hs
        exact h4 hs
    · refine ⟨?_, ?_, ?_, ?_⟩
      · intro hf
        simp [hpf] at hf
      · intro idx hidx
        exact ⟨rfl, hpf, hpc⟩
      · intro hc
        simp [hpc] at hc
      · intro hs
        exact h4 hs
  | restartClick hsc =>
    have hpf : s.pendingFetch = false := by
      cases hf : s.pendingFetch with
      | false => rfl
      | true =>
        have := (h1 hf).1
        rw [hsc] at this
        simp at this
    have hpc : s.pendingCompletion = false := by
      cases hc : s.pendingCompletion with
      | false => rfl
      | true =>
        have := (h3 hc).1
        rw [hsc] at this
        simp at this
    refine ⟨?_, ?_, ?_, ?_⟩
    · intro hf
      simp [hpf] at hf
    · intro idx hidx
      exact ⟨rfl, hpf, hpc⟩
    · intro hc
      simp [hpc] at hc
    · intro hs
      exact h4 hs
  | loadFinish idx outcome hl =>
    obtain ⟨hsc, hpf, hpc⟩ := h2 idx hl
    cases outcome with
    | fetchFail msg =>
      refine ⟨?_, ?_, ?_, ?_⟩
      · intro hf
        simp [loadLevel, hpf] at hf
      · intro idx' hidx
        simp [loadLevel] at hidx
      · intro hc
        simp [loadLevel, hpc] at hc
      · intro hs
        simp only [loadLevel] at hs ⊢
        exact h4 hs
    | imageFail ld =>
      refine ⟨?_, ?_, ?_, ?_⟩
      · intro hf
        simp [loadLevel, hpf] at hf
      · intro idx' hidx
        simp [loadLevel] at hidx
      · intro hc
        simp [loadLevel, hpc] at hc
      · intro hs
        simp only [loadLevel] at hs ⊢
        exact h4 hs
    | success ld rand img =>
      refine ⟨?_, ?_, ?_, ?_⟩
      · intro hf
        simp [loadLevel, hpf] at hf
      · intro idx' hidx
        simp [loadLevel] at hidx
      · intro hc
        simp [loadLevel, hpc] at hc
      · intro _
        simp [loadLevel]

lemma inv_reachable {s : GameState} (h : Reachable s) : Inv s := by
  induction h with
  | init => exact inv_initial
  | step _ hstep ih => exact inv_step ih hstep

lemma foldl_swapTiles_perm (m : Nat) :
    ∀ (swaps : List (Nat × Nat)) (s : GameState),
      ((s.tiles.map (·.originalIndex)).Perm (List.range m)) →
      (∀ p ∈ swaps, p.1 < m ∧ p.2 < m) →
      (((swaps.foldl (fun t p => swapTiles t p.1 p.2) s).tiles.map
          (·.originalIndex)).Perm (List.range m))
  | [], _, hperm, _ => hperm
  | p :: rest, s, hperm, hb => by
    have hlen : s.tiles.length = m := by
      have hl := hperm.length_eq
      simpa using hl
    have hp := hb p (List.mem_cons_self p rest)
    have hswap : (listSwap s.tiles p.1 p.2).Perm s.tiles :=
      listSwap_perm _ _ _ (by omega) (by omega)
    have hstep : (((swapTiles s p.1 p.2).tiles.map (·.originalIndex)).Perm
        (List.range m)) := (hswap.map _).trans hperm
    have hb' : ∀ q ∈ rest, q.1 < m ∧ q.2 < m := fun q hq =>
      hb q (List.mem_cons_of_mem p hq)
    simpa [List.foldl_cons] using
      foldl_swapTiles_perm m rest (swapTiles s p.1 p.2) hstep hb'

/-! Claim theorems. -/

/-- C8: the grid size computed for `levelIndex` equals
`min (3 + levelIndex) 6`; in particular levels 0, 1, 2, 3, 4 get grid sizes
3, 4, 5, 6, 6. -/
theorem grid_size_formula :
    (∀ levelIndex : Nat, calculateGridSize levelIndex = min (3 + levelIndex) 6) ∧
    calculateGridSize 0 = 3 ∧ calculateGridSize 1 = 4 ∧
    calculateGridSize 2 = 5 ∧ calculateGridSize 3 = 6 ∧
    calculateGridSize 4 = 6 := by
  refine ⟨fun _ => rfl, ?_, ?_, ?_, ?_, ?_⟩ <;> decide

/-- C5: the solved check is a pure function of the board returning `true`
iff every position's tile origin ordinal equals its position index (that is,
the list of origin ordinals is exactly `0, 1, ..., n-1` in order); being a
pure function it cannot mutate the board, and calling it twice on the same
board yields the same result. -/
theorem checkSolved_correct :
    (∀ tiles : List Tile,
      checkSolved tiles = true ↔
        tiles.map (·.originalIndex) = List.range tiles.length) ∧
    (∀ tiles : List Tile, checkSolved tiles = checkSolved tiles) :=
  ⟨checkSolved_iff, fun _ => rfl⟩

/-- C4: after the random shuffle step the engine swaps positions 0 and 1
exactly when the inversion count is odd, so on any board with distinct
origin ordinals the returned inversion count is even; concretely
`[1,0,3,2]` has 2 inversions and receives no parity-fix swap, while
`[3,1,2,0]` has 5 inversions and gets positions 0 and 1 swapped. -/
theorem shuffle_parity_fix :
    (∀ shuffled : List Tile,
      (countInversions (shuffled.map (·.originalIndex)) % 2 ≠ 0 →
        parityFix shuffled = listSwap shuffled 0 1) ∧
      (countInversions (shuffled.map (·.originalIndex)) % 2 = 0 →
        parityFix shuffled = shuffled)) ∧
    (∀ (tiles : List Tile) (rand : Nat → Nat),
      (tiles.map (·.originalIndex)).Nodup →
        countInversions ((shuffleTiles tiles rand).map (·.originalIndex)) % 2
          = 0) ∧
    countInversions [1, 0, 3, 2] = 2 ∧
    parityFix (ordinalBoard [1, 0, 3, 2]) = ordinalBoard [1, 0, 3, 2] ∧
    countInversions [3, 1, 2, 0] = 5 ∧
    parityFix (ordinalBoard [3, 1, 2, 0]) = ordinalBoard [1, 3, 2, 0] := by
  refine ⟨?_, shuffleTiles_even, ?_, ?_, ?_, ?_⟩
  · intro shuffled
    constructor
    · intro h
      simp [parityFix, h]
    · intro h
      simp [parityFix, h]
  · decide
  · decide
  · decide
  · decide

/-- Witness for C4: the parity invariant evaluated on the concrete solved
2-tile board with the constant-zero random stream. -/
theorem shuffle_parity_fix_witness :
    ((ordinalBoard [0, 1]).map (·.originalIndex)).Nodup ∧
      countInversions
        ((shuffleTiles (ordinalBoard [0, 1]) (fun _ => 0)).map
          (·.originalIndex)) % 2 = 0 :=
  ⟨by decide, shuffle_parity_fix.2.1 (ordinalBoard [0, 1]) (fun _ => 0)
    (by decide)⟩

/-- C2: starting from a solved input of `m` tiles (origin ordinals
`0..m-1` in order), the board produced by the shuffle engine, and the board
obtained after any further sequence of in-range `swapTiles` operations,
always carries exactly the multiset `{0, ..., m-1}` of origin ordinals — a
permutation with no duplicates and no gaps. -/
theorem board_permutation_invariant :
    ∀ (tiles : List Tile) (m : Nat) (rand : Nat → Nat)
      (swaps : List (Nat × Nat)) (s : GameState),
      tiles.map (·.originalIndex) = List.range m →
      s.tiles = shuffleTiles tiles rand →
      (∀ p ∈ swaps, p.1 < m ∧ p.2 < m) →
      (((swaps.foldl (fun t p => swapTiles t p.1 p.2) s).tiles.map
          (·.originalIndex) : Multiset Nat)) = Multiset.range m := by
  intro tiles m rand swaps s hmap hs hb
  have hperm0 : ((s.tiles.map (·.originalIndex)).Perm (List.range m)) := by
    rw [hs, ← hmap]
    exact (shuffleTiles_perm tiles rand).map _
  have hfold := foldl_swapTiles_perm m swaps s hperm0 hb
  exact Multiset.coe_eq_coe.mpr hfold

/-- Witness for C2: the invariant evaluated on a concrete shuffled 2×2
board followed by one concrete swap. -/
theorem board_permutation_invariant_witness :
    ((createTiles "x" 2).map (·.originalIndex) = List.range 4) ∧
    (∀ p ∈ [((0 : Nat), (3 : Nat))], p.1 < 4 ∧ p.2 < 4) ∧
    ((([((0 : Nat), (3 : Nat))].foldl (fun t p => swapTiles t p.1 p.2)
        { initialState with
          tiles := shuffleTiles (createTiles "x" 2) (fun k => k + 1) }).tiles.map
        (·.originalIndex) : Multiset Nat)) = Multiset.range 4 :=
  ⟨by decide, by decide,
    board_permutation_invariant (createTiles "x" 2) 4 (fun k => k + 1)
      [((0 : Nat), (3 : Nat))]
      { initialState with
        tiles := shuffleTiles (createTiles "x" 2) (fun k => k + 1) }
      (by decide) rfl (by decide)⟩

/-- C3 counterexample: the claim that the shuffle engine never returns an
already-solved board for N² > 1 is false: with the random draws
`rand i = i` every Fisher-Yates iteration swaps a position with itself, the
inversion count of the unchanged solved board is 0 (even), and the engine
returns the solved 2×2 board of 4 > 1 tiles unchanged. -/
theorem shuffle_can_return_solved :
    1 < (createTiles "x" 2).length ∧
    checkSolved (shuffleTiles (createTiles "x" 2) (fun k => k)) = true := by
  decide

/-- C3 amended: the shuffle engine always returns a permutation of its
input, but it does not guarantee that the result is unsolved — for some
random draws the output on a solved input with N² > 1 is again the solved
arrangement. -/
theorem shuffle_output_perm :
    (∀ (tiles : List Tile) (rand : Nat → Nat),
      (shuffleTiles tiles rand).Perm tiles) ∧
    (∃ rand : Nat → Nat,
      checkSolved (shuffleTiles (createTiles "x" 2) rand) = true) :=
  ⟨shuffleTiles_perm, ⟨fun k => k, by decide⟩⟩

/-- C10: on a board of at most one tile the shuffle engine is the identity
(the Fisher-Yates loop body never runs, the inversion count is 0 so the
parity-fix swap of positions 0 and 1 is never taken, and no out-of-range
position is touched), and the solved check reports the partitioner's board
of N² ≤ 1 tiles as solved immediately after shuffling. -/
theorem trivial_board_safe :
    (∀ (tiles : List Tile) (rand : Nat → Nat), tiles.length ≤ 1 →
      shuffleTiles tiles rand = tiles ∧
      countInversions ((fisherYates rand (tiles.length - 1) tiles).map
          (·.originalIndex)) % 2 = 0) ∧
    (∀ (img : String) (rand : Nat → Nat) (N : Nat), N ≤ 1 →
      checkSolved (shuffleTiles (createTiles img N) rand) = true) := by
  constructor
  · intro tiles rand h
    match tiles, h with
    | [], _ =>
      exact ⟨rfl, rfl⟩
    | [x], _ =>
      constructor
      · show parityFix (fisherYates rand 0 [x]) = [x]
        simp [parityFix, fisherYates, countInversions]
      · simp [fisherYates, countInversions]
  · intro img rand N h
    match N, h with
    | 0, _ => rfl
    | 1, _ => rfl

/-- Witness for C10: the shuffle engine applied to a concrete one-tile
board with a concrete random stream returns it unchanged. -/
theorem trivial_board_safe_witness :
    ([(⟨0, 0⟩ : Tile)] : List Tile).length ≤ 1 ∧
      shuffleTiles [(⟨0, 0⟩ : Tile)] (fun _ => 0) = [(⟨0, 0⟩ : Tile)] :=
  ⟨by decide, (trivial_board_safe.1 [(⟨0, 0⟩ : Tile)] (fun _ => 0)
    (by decide)).1⟩

/-- C9: clicking the armed position again on an unsolved board deselects it
and leaves the board and the solved flag unchanged. -/
theorem deselect_noop (s : GameState) (p : Nat)
    (hsolved : s.isSolved = false) (hsel : s.selectedTile = some p) :
    (handleTileClick s p).selectedTile = none ∧
    (handleTileClick s p).tiles = s.tiles ∧
    (handleTileClick s p).isSolved = false := by
  simp [handleTileClick, hsolved, hsel]

/-- Witness for C9: re-selecting armed position 2 on a concrete unsolved
board yields an idle selection with board and solved flag unchanged. -/
theorem deselect_noop_witness :
    armedState.isSolved = false ∧ armedState.selectedTile = some 2 ∧
    ((handleTileClick armedState 2).selectedTile = none ∧
      (handleTileClick armedState 2).tiles = armedState.tiles ∧
      (handleTileClick armedState 2).isSolved = false) :=
  ⟨rfl, rfl, deselect_noop armedState 2 rfl rfl⟩

/-- C7: once the puzzle is solved the board is frozen — every tile click is
a no-op, every event other than the completion of a level load preserves the
solved flag and the board, and the only event that resets the solved flag to
false is a successfully completed Load. -/
theorem solved_locks_board :
    (∀ (s : GameState) (i : Nat), s.isSolved = true →
      handleTileClick s i = s) ∧
    (∀ (s : GameState) (e : Event) (s2 : GameState), Step s e s2 →
      s.isSolved = true → s2.isSolved = false →
      ∃ (ld : LevelData) (rand : Nat → Nat) (img : String),
        e = Event.loadFinish (LoadOutcome.success ld rand img)) ∧
    (∀ (s : GameState) (e : Event) (s2 : GameState), Step s e s2 →
      s.isSolved = true → (∀ outcome, e ≠ Event.loadFinish outcome) →
      s2.isSolved = true ∧ s2.tiles = s.tiles) := by
  refine ⟨handleTileClick_of_solved, ?_, ?_⟩
  · intro s e s2 hstep hsol hns
    cases hstep with
    | fetchOk ls hp hne => simp [hsol] at hns
    | fetchFailed msg hp => simp [hsol] at hns
    | startClick hsc => simp [hsol] at hns
    | retryClick hsc => simp [hsol] at hns
    | tileClick i hsc hi =>
      rw [handleTileClick_of_solved s i hsol] at hns
      simp [hsol] at hns
    | completionFire hp =>
      simp [showCompletionScreen, createAndPlayAudio, hsol] at hns
    | replayClick hsc => simp [hsol] at hns
    | nextClick hsc =>
      by_cases hc : s.currentLevelIndex ≥ s.levels.length - 1 <;>
        simp [nextLevel, hc, hsol] at hns
    | restartClick hsc => simp [hsol] at hns
    | loadFinish idx outcome hl =>
      cases outcome with
      | fetchFail msg => simp [loadLevel, hsol] at hns
      | imageFail ld => simp [loadLevel, hsol] at hns
      | success ld rand img => exact ⟨ld, rand, img, rfl⟩
  · intro s e s2 hstep hsol hne
    cases hstep with
    | fetchOk ls hp hne2 => exact ⟨hsol, rfl⟩
    | fetchFailed msg hp => exact ⟨hsol, rfl⟩
    | startClick hsc => exact ⟨hsol, rfl⟩
    | retryClick hsc => exact ⟨hsol, rfl⟩
    | tileClick i hsc hi =>
      rw [handleTileClick_of_solved s i hsol]
      exact ⟨hsol, rfl⟩
    | completionFire hp => exact ⟨hsol, rfl⟩
    | replayClick hsc => exact ⟨hsol, rfl⟩
    | nextClick hsc =>
      unfold nextLevel
      split
      · exact ⟨hsol, rfl⟩
      · exact ⟨hsol, rfl⟩
    | restartClick hsc => exact ⟨hsol, rfl⟩
    | loadFinish idx outcome hl => exact absurd rfl (hne outcome)

/-- Witness for C7: a tile click on a concrete solved state is the
identity. -/
theorem solved_locks_board_witness :
    solvedState.isSolved = true ∧
      handleTileClick solvedState 0 = solvedState :=
  ⟨rfl, solved_locks_board.1 solvedState 0 rfl⟩

lemma handleTileClick_pc_change (s : GameState) (i : Nat)
    (hp : s.pendingCompletion = false)
    (hc : (handleTileClick s i).pendingCompletion = true) :
    s.isSolved = false ∧ (handleTileClick s i).isSolved = true := by
  by_cases hsol : s.isSolved = true
  · rw [handleTileClick_of_solved s i hsol] at hc
    rw [hp] at hc
    simp at hc
  · have hsol2 : s.isSolved = false := by
      simpa using hsol
    exact ⟨hsol2, handleTileClick_pc s i hsol2 hp hc⟩

/-- C1: the audio element is absent in every reachable state in which the
puzzle is not solved; a pending completion timer implies the puzzle is
solved; along any step of the event loop the audio element can only come
into existence on the completion-screen transition, which only runs with
the puzzle solved; and the completion transition is armed exactly once, by
the tile click that flips the solved flag from false to true — so no code
path (startup, level load, error retry, or a replay request before the
solve) ever constructs the audio element while the puzzle is unsolved. -/
theorem audio_gated_by_solved :
    (∀ s : GameState, Reachable s → s.isSolved = false →
      s.audioElement = none) ∧
    (∀ s : GameState, Reachable s → s.pendingCompletion = true →
      s.isSolved = true) ∧
    (∀ (s : GameState) (e : Event) (s2 : GameState), Reachable s →
      Step s e s2 → s.audioElement = none → s2.audioElement ≠ none →
      e = Event.completionFire ∧ s.isSolved = true) ∧
    (∀ (s : GameState) (e : Event) (s2 : GameState), Step s e s2 →
      s.pendingCompletion = false → s2.pendingCompletion = true →
      (∃ i, e = Event.tileClick i) ∧ s.isSolved = false ∧
        s2.isSolved = true) := by
  refine ⟨?_, ?_, ?_, ?_⟩
  · intro s hr hs
    exact (inv_reachable hr).2.2.2 hs
  · intro s hr hp
    exact ((inv_reachable hr).2.2.1 hp).2
  · intro s e s2 hr hstep ha hns
    cases hstep with
    | fetchOk ls hp hne => exact absurd ha hns
    | fetchFailed msg hp => exact absurd ha hns
    | startClick hsc => exact absurd ha hns
    | retryClick hsc => exact absurd ha hns
    | tileClick i hsc hi =>
      rw [(handleTileClick_frame s i).2.2.2] at hns
      exact absurd ha hns
    | completionFire hp =>
      exact ⟨rfl, ((inv_reachable hr).2.2.1 hp).2⟩
    | replayClick hsc => exact absurd ha hns
    | nextClick hsc =>
      by_cases hc : s.currentLevelIndex ≥ s.levels.length - 1 <;>
        simp [nextLevel, hc] at hns <;> exact absurd ha hns
    | restartClick hsc => exact absurd ha hns
    | loadFinish idx outcome hl =>
      cases outcome with
      | fetchFail msg => exact absurd ha hns
      | imageFail ld => exact absurd ha hns
      | success ld rand img => exact absurd rfl hns
  · intro s e s2 hstep hp hc
    cases hstep with
    | fetchOk ls hpf hne =>
      rw [hp] at hc
      simp at hc
    | fetchFailed msg hpf =>
      rw [hp] at hc
      simp at hc
    | startClick hsc =>
      rw [hp] at hc
      simp at hc
    | retryClick hsc =>
      rw [hp] at hc
      simp at hc
    | tileClick i hsc hi =>
      obtain ⟨h1, h2⟩ := handleTileClick_pc_change s i hp hc
      exact ⟨⟨i, rfl⟩, h1, h2⟩
    | completionFire hpend =>
      simp [showCompletionScreen, createAndPlayAudio] at hc
    | replayClick hsc =>
      rw [hp] at hc
      simp at hc
    | nextClick hsc =>
      by_cases hcc : s.currentLevelIndex ≥ s.levels.length - 1 <;>
        simp [nextLevel, hcc, hp] at hc
    | restartClick hsc =>
      rw [hp] at hc
      simp at hc
    | loadFinish idx outcome hl =>
      cases outcome with
      | fetchFail msg =>
        simp [loadLevel, hp] at hc
      | imageFail ld =>
        simp [loadLevel, hp] at hc
      | success ld rand img =>
        simp [loadLevel, hp] at hc

/-- Witness for C1: the gating theorem applied at the initial state, which
is reachable and unsolved, yields absence of the audio element there. -/
theorem audio_gated_by_solved_witness : initialState.audioElement = none :=
  audio_gated_by_solved.1 initialState Reachable.init rfl

/-- C6 counterexample: a level load that fails at the image-load stage does
leave the load partially applied — starting from a concrete session on
level 0 with grid size 3, the failing `loadLevel 1` transitions to the
error screen but has already changed `gridSize` from 3 to 4,
`currentLevelIndex` from 0 to 1, and `currentLevel` from `none` to the new
level's metadata, contradicting the claim that no session fields change on
failure. -/
theorem load_failure_not_atomic :
    (loadLevel preLoadState 1 (LoadOutcome.imageFail levelTwo)).screen
        = Screen.error ∧
    preLoadState.gridSize = 3 ∧
    (loadLevel preLoadState 1 (LoadOutcome.imageFail levelTwo)).gridSize = 4 ∧
    preLoadState.currentLevelIndex = 0 ∧
    (loadLevel preLoadState 1
        (LoadOutcome.imageFail levelTwo)).currentLevelIndex = 1 ∧
    preLoadState.currentLevel = none ∧
    (loadLevel preLoadState 1 (LoadOutcome.imageFail levelTwo)).currentLevel
        = some levelTwo :=
  ⟨rfl, rfl, rfl, rfl, rfl, rfl, rfl⟩

/-- C6 amended: a failed load always transitions to the error screen with a
`Failed to load level` message; a failure of the metadata fetch changes no
session field, while a failure of the image load has already updated
`currentLevel`, `currentLevelIndex` and `gridSize` to the new level but
leaves the board, selection, solved flag and audio element unchanged. -/
theorem load_failure_frame :
    (∀ (s : GameState) (idx : Nat) (msg : String),
      (loadLevel s idx (LoadOutcome.fetchFail msg)).screen = Screen.error ∧
      (loadLevel s idx (LoadOutcome.fetchFail msg)).errorMessage
          = "Failed to load level: " ++ msg ∧
      (loadLevel s idx (LoadOutcome.fetchFail msg)).currentLevelIndex
          = s.currentLevelIndex ∧
      (loadLevel s idx (LoadOutcome.fetchFail msg)).gridSize = s.gridSize ∧
      (loadLevel s idx (LoadOutcome.fetchFail msg)).tiles = s.tiles ∧
      (loadLevel s idx (LoadOutcome.fetchFail msg)).currentLevel
          = s.currentLevel ∧
      (loadLevel s idx (LoadOutcome.fetchFail msg)).selectedTile
          = s.selectedTile ∧
      (loadLevel s idx (LoadOutcome.fetchFail msg)).isSolved = s.isSolved ∧
      (loadLevel s idx (LoadOutcome.fetchFail msg)).audioElement
          = s.audioElement) ∧
    (∀ (s : GameState) (idx : Nat) (ld : LevelData),
      (loadLevel s idx (LoadOutcome.imageFail ld)).screen = Screen.error ∧
      (loadLevel s idx (LoadOutcome.imageFail ld)).errorMessage
          = "Failed to load level: Failed to load image" ∧
      (loadLevel s idx (LoadOutcome.imageFail ld)).currentLevel = some ld ∧
      (loadLevel s idx (LoadOutcome.imageFail ld)).currentLevelIndex = idx ∧
      (loadLevel s idx (LoadOutcome.imageFail ld)).gridSize
          = calculateGridSize idx ∧
      (loadLevel s idx (LoadOutcome.imageFail ld)).tiles = s.tiles ∧
      (loadLevel s idx (LoadOutcome.imageFail ld)).selectedTile
          = s.selectedTile ∧
      (loadLevel s idx (LoadOutcome.imageFail ld)).isSolved = s.isSolved ∧
      (loadLevel s idx (LoadOutcome.imageFail ld)).audioElement
          = s.audioElement) :=
  ⟨fun _ _ _ => ⟨rfl, rfl, rfl, rfl, rfl, rfl, rfl, rfl, rfl⟩,
   fun _ _ _ => ⟨rfl, rfl, rfl, rfl, rfl, rfl, rfl, rfl, rfl⟩⟩

end Puzzle
